import Mathlib

/-!
Verification development for the Interac e-mail parser (src/src/Parser.js).

JavaScript strings are modelled as `List Char`; the JS string primitives the
parser uses (`split`, `trim`, `indexOf`, `substring`, `toLowerCase`,
`toUpperCase`, `parseFloat`, regex digit search, global comma replacement)
are given executable Lean models below.  JS exceptions (the only reachable one
is the `TypeError` raised when `readUpperCase` dereferences an `undefined`
line) are modelled with `Except Unit`.  JS `null`/missing values are modelled
with `Option`.  A JS number is modelled as `JsFloat`: `NaN`, signed infinity,
or an exact rational (IEEE-754 rounding is abstracted away; no claim below
depends on rounding, only on NaN-ness, finiteness and small exact values).
-/

set_option linter.unusedVariables false
set_option maxRecDepth 20000

/-- The JS whitespace characters relevant to `String.prototype.trim`
(ASCII whitespace plus NBSP and BOM; other exotic Unicode space separators
are abstracted away -- none of the parser's inputs or claims involve them). -/
def jsIsWs (c : Char) : Bool :=
  c == ' ' || c == '\t' || c == '\n' || c == '\r' ||
  c == '\x0b' || c == '\x0c' || c == '\u00A0' || c == '\uFEFF'

/-- Leading-whitespace removal, first half of JS `trim()`. -/
def jsTrimLeft (s : List Char) : List Char := s.dropWhile jsIsWs

/-- Trailing-whitespace removal, second half of JS `trim()`. -/
def jsTrimRight (s : List Char) : List Char := (s.reverse.dropWhile jsIsWs).reverse

/-- JS `String.prototype.trim()`: strip whitespace from both ends. -/
def jsTrim (s : List Char) : List Char := jsTrimRight (jsTrimLeft s)

/-- JS `str.split('\n')`.  Splitting the empty string yields `[""]`, exactly
as in JS. -/
def splitNl (s : List Char) : List (List Char) :=
  match s with
  | [] => [[]]
  | c :: rest =>
    let r := splitNl rest
    if c = '\n' then [] :: r
    else
      match r with
      | h :: t => (c :: h) :: t
      | [] => [[c]]

/-- JS `lines.join('\n')`. -/
def joinNl (lines : List (List Char)) : List Char := List.intercalate ['\n'] lines

/-- The line normalization of `parseBody` (Parser.js line 92): split on
newlines, trim every line, drop the blank ones. -/
def normLines (t : List Char) : List (List Char) :=
  ((splitNl t).map jsTrim).filter (fun l => !l.isEmpty)

/-- JS `String.prototype.toLowerCase` on one character, covering ASCII and the
Latin-1 letters that can occur in the token dictionary and realistic inputs
(other code points are returned unchanged -- an abstraction). -/
def jsCharToLower (c : Char) : Char :=
  if 'A' ≤ c ∧ c ≤ 'Z' then Char.ofNat (c.toNat + 32)
  else if 'À' ≤ c ∧ c ≤ 'Þ' ∧ c ≠ '×' then Char.ofNat (c.toNat + 32)
  else c

/-- JS `toLowerCase` on a whole string. -/
def jsToLowerStr (s : List Char) : List Char := s.map jsCharToLower

/-- JS `String.prototype.toUpperCase` of a single-character string.  The
result is a string because JS upper-cases `'ß'` to `"SS"`; `readUpperCase`
compares `char !== char.toUpperCase()`, so the length-changing case matters. -/
def jsCharToUpperStr (c : Char) : List Char :=
  if c = 'ß' then ['S', 'S']
  else if c = 'ÿ' then ['Ÿ']
  else if 'a' ≤ c ∧ c ≤ 'z' then [Char.ofNat (c.toNat - 32)]
  else if 'à' ≤ c ∧ c ≤ 'þ' ∧ c ≠ '÷' then [Char.ofNat (c.toNat - 32)]
  else [c]

/-- Index of the first element of `l` satisfying `p`, if any. -/
def firstIdx (p : Char → Bool) : List Char → Option Nat
  | [] => none
  | c :: r => if p c then some 0 else (firstIdx p r).map (· + 1)

/-- Index of the first occurrence of the pattern `pat` as a contiguous
sub-sequence of `l`, if any (JS `indexOf` on string patterns; the empty
pattern matches at index 0, as in JS). -/
def firstSubIdx (pat : List Char) : List Char → Option Nat
  | [] => if pat.isEmpty then some 0 else none
  | c :: r => if pat.isPrefixOf (c :: r) then some 0 else (firstSubIdx pat r).map (· + 1)

/-- JS `s.indexOf(c, start)` for a one-character pattern: `-1` when absent, a
negative `start` is treated as `0`. -/
def jsIndexOfChar (s : List Char) (c : Char) (start : Int) : Int :=
  match firstIdx (· == c) (s.drop start.toNat) with
  | some k => ((start.toNat + k : Nat) : Int)
  | none => -1

/-- JS `s.indexOf(pat)` for a string pattern, searching from the start. -/
def jsIndexOfSub (s pat : List Char) : Int :=
  match firstSubIdx pat s with
  | some k => (k : Int)
  | none => -1

/-- JS `s.substring(a, b)`: both arguments are clamped into `[0, length]` and
swapped if out of order. -/
def jsSubstring (s : List Char) (a b : Int) : List Char :=
  let len : Int := s.length
  let a' := (min (max a 0) len).toNat
  let b' := (min (max b 0) len).toNat
  (s.take (max a' b')).drop (min a' b')

/-- JS `line.search(/\d/)`: index of the first decimal digit, `-1` if none. -/
def jsSearchDigit (s : List Char) : Int :=
  match firstIdx Char.isDigit s with
  | some k => (k : Int)
  | none => -1

/-- JS `s.replace(/,/g, '')`: delete every comma. -/
def removeCommas (s : List Char) : List Char := s.filter (fun c => c != ',')

/-- JS `s.replace(/,/g, '.')`: turn every comma into a dot. -/
def commasToDots (s : List Char) : List Char :=
  s.map (fun c => if c = ',' then '.' else c)

/-- A JS number: `NaN`, a signed infinity, or a finite value (modelled as an
exact rational; IEEE-754 rounding is abstracted). -/
inductive JsFloat where
  | nan : JsFloat
  | inf (neg : Bool) : JsFloat
  | fin (q : ℚ) : JsFloat
deriving DecidableEq

/-- The value of the `amount` slot: JS `null` or a JS number. -/
inductive JsValue where
  | null : JsValue
  | num (f : JsFloat) : JsValue
deriving DecidableEq

/-- Numeric value of a list of decimal digit characters. -/
def digitsToNat (ds : List Char) : Nat :=
  ds.foldl (fun a c => a * 10 + (c.toNat - '0'.toNat)) 0

/-- JS `Number.parseFloat`: skip leading whitespace, optional sign, then the
longest prefix that is `Infinity` or a decimal literal with optional fraction
and exponent; `NaN` when no digits can be read.  Finite results are exact
rationals. -/
def jsParseFloat (s : List Char) : JsFloat :=
  let t := s.dropWhile jsIsWs
  let signed : Bool × List Char :=
    match t with
    | '-' :: r => (true, r)
    | '+' :: r => (false, r)
    | r => (false, r)
  let neg := signed.1
  let u := signed.2
  if ("Infinity".data).isPrefixOf u then JsFloat.inf neg
  else
    let intDigits := u.takeWhile Char.isDigit
    let u1 := u.dropWhile Char.isDigit
    let fracPart : List Char × List Char :=
      match u1 with
      | '.' :: r => (r.takeWhile Char.isDigit, r.dropWhile Char.isDigit)
      | r => ([], r)
    let fracDigits := fracPart.1
    let u2 := fracPart.2
    if intDigits.isEmpty ∧ fracDigits.isEmpty then JsFloat.nan
    else
      let expVal : Int :=
        match u2 with
        | 'e' :: r | 'E' :: r =>
          let esigned : Bool × List Char :=
            match r with
            | '-' :: r2 => (true, r2)
            | '+' :: r2 => (false, r2)
            | r2 => (false, r2)
          let eds := esigned.2.takeWhile Char.isDigit
          if eds.isEmpty then 0
          else if esigned.1 then -(digitsToNat eds : Int) else (digitsToNat eds : Int)
        | _ => 0
      let fl := fracDigits.length
      let mantissa : Nat := digitsToNat intDigits * 10 ^ fl + digitsToNat fracDigits
      let value : ℚ :=
        if 0 ≤ expVal then mkRat ((mantissa * 10 ^ expVal.toNat : Nat) : Int) (10 ^ fl)
        else mkRat (mantissa : Int) (10 ^ fl * 10 ^ (-expVal).toNat)
      JsFloat.fin (if neg then -value else value)

/-- JS global `isNaN` applied to the `amount` slot.  Crucially
`isNaN(null)` is `false` because `Number(null)` is `0`. -/
def jsIsNaNLoose (v : JsValue) : Bool :=
  match v with
  | JsValue.num JsFloat.nan => true
  | _ => false

/-- The validity test of Parser.js line 138:
`typeof(amount) === "number" && !Number.isNaN(amount)`. -/
def jsIsNumberNotNaN (v : JsValue) : Bool :=
  match v with
  | JsValue.null => false
  | JsValue.num JsFloat.nan => false
  | JsValue.num _ => true

/-- Decimal rendering of an integer. -/
def intStr (i : Int) : List Char :=
  if i < 0 then '-' :: Nat.toDigits 10 i.natAbs else Nat.toDigits 10 i.natAbs

/-- Rendering of a finite JS number for template-literal interpolation.  The
exact JS double-to-string algorithm is abstracted; no claim depends on the
rendering of finite numbers, only on `null`/`NaN` (rendered faithfully) and on
the fixed message prefix before the interpolated value. -/
def jsShowRat (q : ℚ) : List Char :=
  if q.den = 1 then intStr q.num
  else intStr q.num ++ ('/' :: Nat.toDigits 10 q.den)

/-- JS template-literal rendering of the `amount` slot. -/
def jsShowValue (v : JsValue) : List Char :=
  match v with
  | JsValue.null => "null".data
  | JsValue.num JsFloat.nan => "NaN".data
  | JsValue.num (JsFloat.inf true) => "-Infinity".data
  | JsValue.num (JsFloat.inf false) => "Infinity".data
  | JsValue.num (JsFloat.fin q) => jsShowRat q

/-- The two configured languages. -/
inductive Lang where
  | en : Lang
  | fr : Lang
deriving DecidableEq

/-- The semantic marker keys of the token dictionary. -/
inductive TokenKey where
  | body_greetings : TokenKey
  | message : TokenKey
  | reference : TokenKey
  | subject_start : TokenKey
  | automatic_deposit : TokenKey
  | sent : TokenKey
deriving DecidableEq

/-- The token dictionary at the bottom of Parser.js. -/
def Tokens (l : Lang) (k : TokenKey) : List Char :=
  match l, k with
  | Lang.en, TokenKey.body_greetings => "hi".data
  | Lang.en, TokenKey.message => "message".data
  | Lang.en, TokenKey.reference => "reference".data
  | Lang.en, TokenKey.subject_start => "interac e-transfer".data
  | Lang.en, TokenKey.automatic_deposit => "automatically deposited".data
  | Lang.en, TokenKey.sent => "has sent".data
  | Lang.fr, TokenKey.body_greetings => "bonjour".data
  | Lang.fr, TokenKey.message => "message".data
  | Lang.fr, TokenKey.reference => "référence".data
  | Lang.fr, TokenKey.subject_start => "virement interac".data
  | Lang.fr, TokenKey.automatic_deposit => "automatiquement".data
  | Lang.fr, TokenKey.sent => "vous".data

/-- Iteration order of `for (let language in Tokens)`: object insertion
order, English before French. -/
def langOrder : List Lang := [Lang.en, Lang.fr]

/-- `Parser.tokenStarts`: the first language whose marker for `k` is a prefix
of `text`, else `null`. -/
def tokenStarts (text : List Char) (k : TokenKey) : Option Lang :=
  langOrder.find? (fun l => (Tokens l k).isPrefixOf text)

/-- `Parser.tokenExists`: the first language whose marker for `k` occurs in
`text`, else `null`. -/
def tokenExists (text : List Char) (k : TokenKey) : Option Lang :=
  langOrder.find? (fun l => jsIndexOfSub text (Tokens l k) != -1)

/-- `Parser.tokenStartsLine`: for each language in order, the first line whose
lower-cased form starts with that language's marker; `null` if none. -/
def tokenStartsLine (lines : List (List Char)) (k : TokenKey) : Option (List Char) :=
  langOrder.findSome? (fun l =>
    lines.find? (fun line => (Tokens l k).isPrefixOf (jsToLowerStr line)))

/-- `Parser.containsLine`: the first line containing `tok`, else `null`. -/
def containsLine (lines : List (List Char)) (tok : List Char) : Option (List Char) :=
  lines.find? (fun line => jsIndexOfSub line tok != -1)

/-- `Parser.readAfter` with the default `trim: true` option (the only form the
parser uses): everything after the first occurrence of `tok`, trimmed; `null`
when `tok` does not occur. -/
def readAfter (text tok : List Char) : Option (List Char) :=
  let index := jsIndexOfSub text tok
  if index = -1 then none
  else some (jsTrim (jsSubstring text (index + tok.length) text.length))

/-- The continuation test of the `Parser.readUpperCase` loop:
`char === char.toUpperCase()` -- the character is its own upper-cased form. -/
def ownUpper (c : Char) : Bool := jsCharToUpperStr c == [c]

/-- The loop of `Parser.readUpperCase`: length of the leading run of
characters that equal their own JS upper-cased form. -/
def upperRunLen (line : List Char) : Nat :=
  (line.takeWhile ownUpper).length

/-- The value `Parser.readUpperCase` computes on a real (non-`undefined`)
string: `line.substring(0, index - 1).trim()`. -/
def upperName (line : List Char) : List Char :=
  jsTrim (jsSubstring line 0 ((upperRunLen line : Int) - 1))

/-- `Parser.readUpperCase`.  Called with `lines[1]`, which in JS is
`undefined` when the normalized body has fewer than two lines; the loop bound
`line.length` then raises `TypeError`, modelled as `Except.error`. -/
def readUpperCase (line : Option (List Char)) : Except Unit (List Char) :=
  match line with
  | none => Except.error ()
  | some l => Except.ok (upperName l)

/-- The `body` record built by `Parser.parseBody`. -/
structure Body where
  text : List Char
  language : Option Lang
  amount : JsValue
  currency : Option (List Char)
  is_auto_deposit : Bool
  message : Option (List Char)
  reference : Option (List Char)
  is_valid_amount : Bool
  from_name : List Char
deriving DecidableEq

/-- Primary amount strategy, Parser.js lines 121-127: between the first `$`
and the next space after it; the amount stays `null` when either delimiter is
missing. -/
def primaryAmount (line : List Char) : JsValue :=
  let amountStart := jsIndexOfChar line '$' 0
  let amountEnd := jsIndexOfChar line ' ' amountStart
  if amountStart ≠ -1 ∧ amountEnd ≠ -1 then
    JsValue.num (jsParseFloat (removeCommas (jsTrim (jsSubstring line (amountStart + 1) amountEnd))))
  else JsValue.null

/-- Fallback amount block, Parser.js lines 129-135: from the first digit to
the next space after it; the incoming amount is kept when either delimiter is
missing. -/
def fallbackBlock (line : List Char) (amount1 : JsValue) : JsValue :=
  let digitStart := jsSearchDigit line
  let digitEnd := jsIndexOfChar line ' ' digitStart
  if digitStart ≠ -1 ∧ digitEnd ≠ -1 then
    JsValue.num (jsParseFloat (commasToDots (jsTrim (jsSubstring line digitStart digitEnd))))
  else amount1

/-- Amount extraction of Parser.js lines 121-135 applied to the selected
line: the primary strategy, then -- only when the JS test `isNaN(amount)` is
true -- the fallback block. -/
def amountOf (line : List Char) : JsValue :=
  let amount1 := primaryAmount line
  if jsIsNaNLoose amount1 then fallbackBlock line amount1 else amount1

/-- Currency extraction of Parser.js lines 141-143 applied to the selected
line. -/
def currencyOf (line : List Char) : Option (List Char) :=
  let currencyStart := jsIndexOfChar line '(' 0
  let currencyEnd := jsIndexOfChar line ')' currencyStart
  if currencyStart ≠ -1 ∧ currencyEnd ≠ -1 ∧ 3 ≤ currencyEnd - currencyStart then
    some (jsSubstring line (currencyStart + 1) currencyEnd)
  else none

/-- All fields of the `body` record other than `from_name` (which is computed
by `readUpperCase` and may not exist because that call can throw); values are
exactly those assigned by `Parser.parseBody`. -/
def bodyFacts (lines : List (List Char)) (from_name : List Char) : Body :=
  let text := joinNl lines
  let language := tokenStarts (jsToLowerStr text) TokenKey.body_greetings
  let is_auto_deposit := (tokenExists (jsToLowerStr text) TokenKey.automatic_deposit).isSome
  let message := (tokenStartsLine lines TokenKey.message).bind (fun l => readAfter l [':'])
  let reference := (tokenStartsLine lines TokenKey.reference).bind (fun l => readAfter l [':'])
  match containsLine lines ['$'] with
  | none =>
    { text, language, amount := JsValue.null, currency := none, is_auto_deposit,
      message, reference, is_valid_amount := false, from_name }
  | some line =>
    let amount := amountOf line
    { text, language, amount, currency := currencyOf line, is_auto_deposit,
      message, reference, is_valid_amount := jsIsNumberNotNaN amount, from_name }

/-- `Parser.parseBody`.  The language / auto-deposit / message / reference /
amount / currency steps are total, so gathering them in `bodyFacts` after the
(possibly throwing) `readUpperCase` call is observationally equivalent to the
source order. -/
def parseBody (bodyText : List Char) : Except Unit Body :=
  let lines := normLines bodyText
  match readUpperCase lines[1]? with
  | Except.error e => Except.error e
  | Except.ok fn => Except.ok (bodyFacts lines fn)

/-- The `subject` record built by `Parser.parseSubject`. -/
structure Subject where
  text : List Char
  language : Option Lang
  is_email_transfer : Bool
  is_auto_deposit : Bool
deriving DecidableEq

/-- `Parser.parseSubject`: the stored `text` is the original subject, the
matching runs on its lower-cased form. -/
def parseSubject (text : List Char) : Subject :=
  let lower := jsToLowerStr text
  let language := tokenStarts lower TokenKey.subject_start
  { text, language,
    is_email_transfer := language.isSome,
    is_auto_deposit := (tokenExists lower TokenKey.automatic_deposit).isSome }

/-- One entry of a MailParser address list (`name` / `address` may be
missing). -/
structure AddrEntry where
  name : Option (List Char)
  address : Option (List Char)
deriving DecidableEq

/-- A MailParser address object; `value` is `none` when the slot's `value`
member is not an array. -/
structure AddrList where
  value : Option (List AddrEntry)
deriving DecidableEq

/-- The MailParser e-mail object fields Parser.js reads. -/
structure Email where
  subject : List Char
  text : List Char
  toAddr : Option AddrList
  fromAddr : Option AddrList
  replyToAddr : Option AddrList
  messageId : List Char
  date : Int
  uid : Option (List Char)
  server_id : Option (List Char)
deriving DecidableEq

/-- The `{name, email}` pair `Parser.getRecipient` returns. -/
structure Recipient where
  name : Option (List Char)
  email : Option (List Char)
deriving DecidableEq

/-- `Parser.getRecipient`: first entry of the address list when present,
`null` fields otherwise (JS: a missing first entry is `undefined`, which is
falsy, so both fields become `null`). -/
def getRecipient (slot : Option AddrList) : Recipient :=
  match slot with
  | some al =>
    match al.value with
    | some (e :: _) => { name := e.name, email := e.address }
    | some [] => { name := none, email := none }
    | none => { name := none, email := none }
  | none => { name := none, email := none }

/-- Validation message of Parser.js line 31. -/
def subjectErrMsg : List Char :=
  "Subject does not start with \x27INTERAC e-Transfer\x27.".data

/-- Validation message of Parser.js line 32 (template literal interpolating
the amount). -/
def amountErrMsg (v : JsValue) : List Char :=
  "Amount is not a valid number: ".data ++ jsShowValue v

/-- Validation message of Parser.js line 33. -/
def langErrMsg : List Char := "Subject and body language does not match.".data

/-- Validation message of Parser.js line 34. -/
def autoErrMsg : List Char := "Subject and body auto-deposit does not match.".data

/-- The error list built by the four `errors.push` statements of Parser.js
lines 31-34, in source order. -/
def errorsOf (subject : Subject) (body : Body) : List (List Char) :=
  (if subject.is_email_transfer then [] else [subjectErrMsg]) ++
  (if body.is_valid_amount then [] else [amountErrMsg body.amount]) ++
  (if subject.language = body.language then [] else [langErrMsg]) ++
  (if subject.is_auto_deposit = body.is_auto_deposit then [] else [autoErrMsg])

/-- The output record of `Parser.parse`. -/
structure TransferRecord where
  version : List Char
  uid : Option (List Char)
  serverId : Option (List Char)
  messageId : List Char
  date : Int
  toName : Option (List Char)
  toEmail : Option (List Char)
  fromName : Option (List Char)
  fromEmail : Option (List Char)
  replyToName : Option (List Char)
  replyToEmail : Option (List Char)
  language : Option Lang
  amount : JsValue
  currency : Option (List Char)
  reference : Option (List Char)
  isAutoDeposit : Bool
  userMessage : Option (List Char)
  isEmailTransfer : Bool
  body : List Char
  subject : List Char
  errors : Option (List (List Char))
deriving DecidableEq

/-- The record literal of Parser.js lines 37-65, given the already-computed
body facts.  Recipient and subject analysis are total, so computing them here
(after the throwing body analysis) is observationally equivalent to the source
order. -/
def assemble (email : Email) (body : Body) : TransferRecord :=
  let toRcpt := getRecipient email.toAddr
  let fromRcpt := getRecipient email.fromAddr
  let replyTo := getRecipient email.replyToAddr
  let subject := parseSubject email.subject
  let errors := errorsOf subject body
  { version := "2.0".data,
    uid := email.uid,
    serverId := email.server_id,
    messageId := email.messageId,
    date := email.date,
    toName := toRcpt.name, toEmail := toRcpt.email,
    fromName := fromRcpt.name, fromEmail := fromRcpt.email,
    replyToName := replyTo.name, replyToEmail := replyTo.email,
    language := match body.language with
      | some l => some l
      | none => subject.language,
    amount := body.amount,
    currency := body.currency,
    reference := body.reference,
    isAutoDeposit := body.is_auto_deposit && subject.is_auto_deposit,
    userMessage := body.message,
    isEmailTransfer := subject.is_email_transfer && body.is_valid_amount,
    body := body.text,
    subject := subject.text,
    errors := if errors.isEmpty then none else some errors }

/-- `Parser.parse`: body analysis may throw (propagated), everything else is
total. -/
def parse (email : Email) : Except Unit TransferRecord :=
  match parseBody email.text with
  | Except.error e => Except.error e
  | Except.ok body => Except.ok (assemble email body)

/-! ## Specification-side definitions

These restate, in the claims' own vocabulary (first index, drop/take spans),
what the spec asserts about amount and currency extraction.  They are compared
against the source-derived `amountOf` / `currencyOf` above. -/

/-- Spec: the primary amount strategy -- the substring strictly between the
first `$` and the next space after it, trimmed, with all commas removed,
parsed as a floating-point number; `none` when either delimiter is missing. -/
def primarySpecAmount (line : List Char) : Option JsFloat :=
  (firstIdx (· == '$') line).bind fun i =>
    (firstIdx (· == ' ') (line.drop (i + 1))).map fun k =>
      jsParseFloat (removeCommas (jsTrim ((line.drop (i + 1)).take k)))

/-- Spec: the fallback amount strategy -- the substring from the first digit
of the line to the next space after it, trimmed, with commas replaced by
dots, parsed as a floating-point number; `none` when either delimiter is
missing. -/
def fallbackSpecAmount (line : List Char) : Option JsFloat :=
  (firstIdx Char.isDigit line).bind fun i =>
    (firstIdx (· == ' ') (line.drop i)).map fun k =>
      jsParseFloat (commasToDots (jsTrim ((line.drop i).take k)))

/-- Spec: the substring strictly between the first `(` and the next `)` after
it, when both exist. -/
def firstParenInterior (line : List Char) : Option (List Char) :=
  (firstIdx (· == '(') line).bind fun i =>
    (firstIdx (· == ')') (line.drop (i + 1))).map fun k =>
      (line.drop (i + 1)).take k

/-- The amount computation claim C4 asserts: the primary strategy's value
(not-a-number when it cannot parse), with the fallback applied whenever the
primary yields not-a-number. -/
def claimedAmount (line : List Char) : JsValue :=
  let p : JsFloat :=
    match primarySpecAmount line with
    | some f => f
    | none => JsFloat.nan
  match p with
  | JsFloat.nan =>
    match fallbackSpecAmount line with
    | some f => JsValue.num f
    | none => JsValue.num JsFloat.nan
  | f => JsValue.num f

/-- Claim C1 as stated: the currency is the interior of the first
parenthesized span exactly when that interior has length at least 3. -/
def claimC1 : Prop :=
  ∀ (text : List Char) (b : Body) (line : List Char),
    parseBody text = Except.ok b →
    containsLine (normLines text) ['$'] = some line →
    b.currency = (firstParenInterior line).bind
      (fun r => if 3 ≤ r.length then some r else none)

/-- Claim C2 as stated: `Parser.parse` returns normally on every input. -/
def claimC2 : Prop :=
  ∀ email : Email, ∃ r : TransferRecord, parse email = Except.ok r

/-- Claim C3 as stated: the validity flag is true only when the parsed amount
is a finite number. -/
def claimC3 : Prop :=
  ∀ (text : List Char) (b : Body),
    parseBody text = Except.ok b →
    b.is_valid_amount = true →
    ∃ q : ℚ, b.amount = JsValue.num (JsFloat.fin q)

/-- Claim C4 as stated: the amount is the primary strategy's value, with the
fallback strategy applied whenever the primary yields not-a-number. -/
def claimC4 : Prop :=
  ∀ (text : List Char) (b : Body) (line : List Char),
    parseBody text = Except.ok b →
    containsLine (normLines text) ['$'] = some line →
    b.amount = claimedAmount line

/-! ## Concrete inputs used by counterexamples and witnesses -/

/-- Scenario-A-style body text (English, `$5.25 (CAD)`, auto-deposited). -/
def sampleText : List Char :=
  ("Hi SAMPLE LANDLORD,\n" ++
   "SAMPLE TENANT has sent you a money transfer for the amount of $5.25 (CAD) and the money has been automatically deposited into your bank account.\n" ++
   "Message: rent due\n" ++
   "Reference Number : CAvjMTys").data

/-- The second normalized line of `sampleText`. -/
def sampleLine1 : List Char :=
  "SAMPLE TENANT has sent you a money transfer for the amount of $5.25 (CAD) and the money has been automatically deposited into your bank account.".data

/-- The first normalized line of `sampleText`. -/
def sampleLine0 : List Char := "Hi SAMPLE LANDLORD,".data

/-- The normalized lines of `sampleText` after the second one. -/
def sampleRest : List (List Char) :=
  ["Message: rent due".data, "Reference Number : CAvjMTys".data]

/-- A Scenario-A-style e-mail. -/
def sampleEmail : Email :=
  { subject := "INTERAC e-Transfer: A money transfer from SAMPLE TENANT has been automatically deposited.".data,
    text := sampleText,
    toAddr := some { value := some [{ name := some "SAMPLE LANDLORD".data,
                                      address := some "addmoney@landlord.ca".data }] },
    fromAddr := some { value := some [{ name := some "SAMPLE TENANT".data,
                                        address := some "catch@payments.interac.ca".data }] },
    replyToAddr := none,
    messageId := "mid-1".data,
    date := 0,
    uid := none,
    server_id := none }

/-- Body whose selected amount line has a 2-character parenthesized span. -/
def c1Text : List Char := "a\nb\n$5.25 (CA) x".data

/-- The selected amount line of `c1Text`. -/
def c1Line : List Char := "$5.25 (CA) x".data

/-- An e-mail whose body has only one non-blank line. -/
def c2Email : Email := { sampleEmail with text := "Hi SAMPLE LANDLORD,".data }

/-- Body whose amount parses to positive infinity. -/
def c3Text : List Char := "a\nb\n$Infinity (CAD)".data

/-- Body whose amount line has no space after the `$` but whose first digit
is followed by a space, so the claimed fallback would succeed. -/
def c4Text : List Char := "a\nb\n5 x$123".data

/-- The selected amount line of `c4Text`. -/
def c4Line : List Char := "5 x$123".data

/-- An e-mail whose body has no line containing a dollar sign. -/
def c9Email : Email :=
  { sampleEmail with
    text := ("Hi SAMPLE LANDLORD,\n" ++
             "SAMPLE TENANT sent a transfer.\n" ++
             "Message: rent due").data }

/-- A default body record, used only to totalize `okBody` / `okRec`. -/
def emptyBody : Body :=
  { text := [], language := none, amount := JsValue.null, currency := none,
    is_auto_deposit := false, message := none, reference := none,
    is_valid_amount := false, from_name := [] }

/-- The body record `parseBody` returns, defaulting when it throws. -/
def okBody (t : List Char) : Body :=
  match parseBody t with
  | Except.ok b => b
  | Except.error _ => emptyBody

/-- The record `parse` returns, defaulting when it throws. -/
def okRec (e : Email) : TransferRecord :=
  match parse e with
  | Except.ok r => r
  | Except.error _ => assemble e emptyBody

/-! ## Supporting lemmas about the string primitives -/

theorem firstIdx_some_lt {p : Char → Bool} {l : List Char} {i : Nat}
    (h : firstIdx p l = some i) : i < l.length := by
  induction l generalizing i with
  | nil => simp [firstIdx] at h
  | cons c r ih =>
    simp only [firstIdx] at h
    by_cases hc : p c
    · rw [if_pos hc] at h
      have hi : i = 0 := (Option.some.inj h).symm
      subst hi
      simp
    · simp [hc] at h
      obtain ⟨j, hj, rfl⟩ := h
      have := ih hj
      simp only [List.length_cons]
      omega

theorem firstIdx_some_drop {p : Char → Bool} {l : List Char} {i : Nat}
    (h : firstIdx p l = some i) :
    ∃ c r, l.drop i = c :: r ∧ p c = true ∧ l.drop (i + 1) = r := by
  induction l generalizing i with
  | nil => simp [firstIdx] at h
  | cons c r ih =>
    simp only [firstIdx] at h
    by_cases hc : p c
    · simp [hc] at h
      exact ⟨c, r, by simp [← h], by simpa using hc, by simp [← h]⟩
    · simp [hc] at h
      obtain ⟨j, hj, rfl⟩ := h
      obtain ⟨d, s, h1, h2, h3⟩ := ih hj
      exact ⟨d, s, by simpa using h1, h2, by simpa using h3⟩

theorem firstIdx_none_iff {p : Char → Bool} {l : List Char} :
    firstIdx p l = none ↔ ∀ c ∈ l, p c = false := by
  induction l with
  | nil => simp [firstIdx]
  | cons c r ih =>
    by_cases hc : p c <;> simp [firstIdx, hc, ih]

theorem firstSubIdx_singleton_none_iff {c : Char} {l : List Char} :
    firstSubIdx [c] l = none ↔ c ∉ l := by
  induction l with
  | nil => simp [firstSubIdx]
  | cons d r ih =>
    simp only [firstSubIdx]
    by_cases hd : c = d
    · subst hd
      simp [List.isPrefixOf]
    · have hbeq : (c == d) = false := by simpa using hd
      simp [List.isPrefixOf, hbeq, ih, hd]

theorem jsIndexOfSub_singleton_eq_neg_one_iff {l : List Char} {c : Char} :
    jsIndexOfSub l [c] = -1 ↔ c ∉ l := by
  unfold jsIndexOfSub
  cases h : firstSubIdx [c] l with
  | none =>
    simp [firstSubIdx_singleton_none_iff.mp h]
  | some k =>
    have : ¬ c ∉ l := fun hc => by
      rw [firstSubIdx_singleton_none_iff.mpr hc] at h
      exact Option.noConfusion h
    simp [this]

theorem containsLine_eq_none_iff {lines : List (List Char)} {c : Char} :
    containsLine lines [c] = none ↔ ∀ l ∈ lines, c ∉ l := by
  unfold containsLine
  rw [List.find?_eq_none]
  constructor
  · intro h l hl
    have := h l hl
    rw [bne_iff_ne, not_not] at this
    exact jsIndexOfSub_singleton_eq_neg_one_iff.mp this
  · intro h l hl
    rw [bne_iff_ne, not_not]
    exact jsIndexOfSub_singleton_eq_neg_one_iff.mpr (h l hl)

theorem jsIndexOfChar_natCast (s : List Char) (ch : Char) (i : Nat) :
    jsIndexOfChar s ch (i : Int) =
      match firstIdx (· == ch) (s.drop i) with
      | some k => ((i + k : Nat) : Int)
      | none => -1 := by
  unfold jsIndexOfChar
  rw [Int.toNat_ofNat]

theorem jsIndexOfChar_zero (s : List Char) (ch : Char) :
    jsIndexOfChar s ch 0 =
      match firstIdx (· == ch) s with
      | some k => (k : Int)
      | none => -1 := by
  have h := jsIndexOfChar_natCast s ch 0
  simpa using h

theorem jsSubstring_eq_drop_take {s : List Char} {a b : Nat} (hab : a ≤ b)
    (hb : b ≤ s.length) :
    jsSubstring s (a : Int) (b : Int) = (s.drop a).take (b - a) := by
  unfold jsSubstring
  have ha' : ((min (max (a : Int) 0) (s.length : Int)).toNat) = a := by
    rw [max_eq_left (by exact_mod_cast Nat.zero_le a),
        min_eq_left (by exact_mod_cast le_trans hab hb), Int.toNat_ofNat]
  have hb' : ((min (max (b : Int) 0) (s.length : Int)).toNat) = b := by
    rw [max_eq_left (by exact_mod_cast Nat.zero_le b),
        min_eq_left (by exact_mod_cast hb), Int.toNat_ofNat]
  simp only [ha', hb', max_eq_right hab, min_eq_left hab]
  exact List.drop_take b a s

theorem jsIndexOfChar_after_found {line : List Char} {a ch : Char} {i : Nat}
    (hD : firstIdx (· == a) line = some i) (hne : (a == ch) = false) :
    jsIndexOfChar line ch (i : Int) =
      match firstIdx (· == ch) (line.drop (i + 1)) with
      | some k => ((i + 1 + k : Nat) : Int)
      | none => -1 := by
  obtain ⟨c, r, hdrop, hc, hdrop1⟩ := firstIdx_some_drop hD
  have hceq : c = a := by simpa using hc
  subst hceq
  rw [jsIndexOfChar_natCast, hdrop, hdrop1]
  have hcons : firstIdx (· == ch) (c :: r) = (firstIdx (· == ch) r).map (· + 1) := by
    simp [firstIdx, hne]
  rw [hcons]
  cases hS : firstIdx (· == ch) r with
  | none => simp
  | some k =>
    simp only [Option.map_some']
    push_cast
    ring

theorem primaryAmount_eq_spec (line : List Char) :
    primaryAmount line =
      match primarySpecAmount line with
      | some p => JsValue.num p
      | none => JsValue.null := by
  unfold primaryAmount primarySpecAmount
  rw [jsIndexOfChar_zero]
  cases hD : firstIdx (· == '$') line with
  | none => simp
  | some i =>
    dsimp only
    rw [jsIndexOfChar_after_found hD (by decide)]
    simp only [Option.some_bind]
    cases hS : firstIdx (· == ' ') (line.drop (i + 1)) with
    | none => simp
    | some k =>
      have hilen : i < line.length := firstIdx_some_lt hD
      have hklen : k < (line.drop (i + 1)).length := firstIdx_some_lt hS
      rw [List.length_drop] at hklen
      have h1 : ((i : Nat) : Int) ≠ -1 := by omega
      have h2 : ((i + 1 + k : Nat) : Int) ≠ -1 := by omega
      have hcast : ((i : Nat) : Int) + 1 = ((i + 1 : Nat) : Int) := by push_cast; ring
      have hsub : jsSubstring line ((i + 1 : Nat) : Int) ((i + 1 + k : Nat) : Int)
          = (line.drop (i + 1)).take k := by
        rw [jsSubstring_eq_drop_take (by omega) (by omega)]
        congr 1
        omega
      simp only [Option.map_some']
      rw [if_pos ⟨h1, h2⟩, hcast, hsub]
theorem fallbackBlock_eq_spec (line : List Char) (a1 : JsValue) :
    fallbackBlock line a1 =
      match fallbackSpecAmount line with
      | some f => JsValue.num f
      | none => a1 := by
  unfold fallbackBlock fallbackSpecAmount jsSearchDigit
  cases hD : firstIdx Char.isDigit line with
  | none => simp
  | some i =>
    dsimp only
    rw [jsIndexOfChar_natCast]
    simp only [Option.some_bind]
    cases hS : firstIdx (· == ' ') (line.drop i) with
    | none => simp
    | some k =>
      have hilen : i < line.length := firstIdx_some_lt hD
      have hklen : k < (line.drop i).length := firstIdx_some_lt hS
      rw [List.length_drop] at hklen
      have h1 : ((i : Nat) : Int) ≠ -1 := by omega
      have h2 : ((i + k : Nat) : Int) ≠ -1 := by omega
      have hsub : jsSubstring line ((i : Nat) : Int) ((i + k : Nat) : Int)
          = (line.drop i).take k := by
        rw [jsSubstring_eq_drop_take (by omega) (by omega)]
        congr 1
        omega
      simp only [Option.map_some']
      rw [if_pos ⟨h1, h2⟩, hsub]

theorem amountOf_eq_spec (line : List Char) :
    amountOf line =
      match primarySpecAmount line with
      | none => JsValue.null
      | some p =>
        if p = JsFloat.nan then
          match fallbackSpecAmount line with
          | some f => JsValue.num f
          | none => JsValue.num JsFloat.nan
        else JsValue.num p := by
  unfold amountOf
  rw [primaryAmount_eq_spec]
  cases hP : primarySpecAmount line with
  | none => simp [jsIsNaNLoose]
  | some p =>
    by_cases hnan : p = JsFloat.nan
    · subst hnan
      simp only [jsIsNaNLoose, if_pos rfl]
      rw [fallbackBlock_eq_spec]
    · have hfalse : jsIsNaNLoose (JsValue.num p) = false := by
        cases p <;> simp [jsIsNaNLoose] at hnan ⊢
      simp [hfalse, hnan]

theorem currencyOf_eq_spec (line : List Char) :
    currencyOf line =
      (firstParenInterior line).bind
        (fun r => if 2 ≤ r.length then some r else none) := by
  unfold currencyOf firstParenInterior
  rw [jsIndexOfChar_zero]
  cases hD : firstIdx (· == '(') line with
  | none => simp
  | some i =>
    dsimp only
    rw [jsIndexOfChar_after_found hD (by decide)]
    simp only [Option.some_bind]
    cases hS : firstIdx (· == ')') (line.drop (i + 1)) with
    | none => simp
    | some k =>
      have hilen : i < line.length := firstIdx_some_lt hD
      have hklen : k < (line.drop (i + 1)).length := firstIdx_some_lt hS
      rw [List.length_drop] at hklen
      have hcast : ((i : Nat) : Int) + 1 = ((i + 1 : Nat) : Int) := by push_cast; ring
      have hsub : jsSubstring line ((i + 1 : Nat) : Int) ((i + 1 + k : Nat) : Int)
          = (line.drop (i + 1)).take k := by
        rw [jsSubstring_eq_drop_take (by omega) (by omega)]
        congr 1
        omega
      have hlen : ((line.drop (i + 1)).take k).length = k := by
        rw [List.length_take, List.length_drop]
        omega
      simp only [Option.map_some', Option.some_bind]
      by_cases h3 : (2 : Nat) ≤ k
      · have hc1 : ((i : Nat) : Int) ≠ -1 := by omega
        have hc2 : ((i + 1 + k : Nat) : Int) ≠ -1 := by omega
        have hc3 : (3 : Int) ≤ ((i + 1 + k : Nat) : Int) - ((i : Nat) : Int) := by
          push_cast
          omega
        rw [if_pos ⟨hc1, hc2, hc3⟩, hcast, hsub, if_pos (by omega)]
      · have hc : ¬ (((i : Nat) : Int) ≠ -1 ∧ ((i + 1 + k : Nat) : Int) ≠ -1 ∧
            (3 : Int) ≤ ((i + 1 + k : Nat) : Int) - ((i : Nat) : Int)) := by
          push_cast
          omega
        rw [if_neg hc, if_neg (by omega)]
theorem dropWhile_head_false {p : Char → Bool} {l : List Char} {c : Char} {r : List Char}
    (h : l.dropWhile p = c :: r) : p c = false := by
  induction l with
  | nil => simp at h
  | cons d t ih =>
    by_cases hd : p d
    · rw [List.dropWhile_cons_of_pos hd] at h
      exact ih h
    · rw [List.dropWhile_cons_of_neg hd] at h
      rw [(List.cons.inj h).1] at hd
      simpa using hd

theorem jsTrimLeft_head_false {s : List Char} {c : Char} {r : List Char}
    (h : jsTrimLeft s = c :: r) : jsIsWs c = false :=
  dropWhile_head_false h

theorem jsTrimRight_front (s : List Char) : jsTrimRight s <+: s := by
  unfold jsTrimRight
  have h : List.dropWhile jsIsWs s.reverse <:+ s.reverse := List.dropWhile_suffix jsIsWs
  have h2 := List.reverse_prefix.mpr h
  simpa using h2

theorem jsTrim_head_false {s : List Char} {c : Char} {r : List Char}
    (h : jsTrim s = c :: r) : jsIsWs c = false := by
  unfold jsTrim at h
  obtain ⟨t, ht⟩ := jsTrimRight_front (jsTrimLeft s)
  rw [h, List.cons_append] at ht
  exact jsTrimLeft_head_false ht.symm

theorem jsTrim_cons_not_ws {c : Char} {r : List Char} (h : jsIsWs c = false) :
    jsTrim (c :: r) = jsTrimRight (c :: r) := by
  unfold jsTrim jsTrimLeft
  rw [List.dropWhile_cons_of_neg (by simp [h])]

theorem normLines_mem {t : List Char} {l : List Char} (h : l ∈ normLines t) :
    (∃ s, l = jsTrim s) ∧ l ≠ [] := by
  unfold normLines at h
  rw [List.mem_filter] at h
  obtain ⟨hmem, hne⟩ := h
  rw [List.mem_map] at hmem
  obtain ⟨s, _, rfl⟩ := hmem
  refine ⟨⟨s, rfl⟩, ?_⟩
  simpa using hne

theorem upperName_eq_trimRight {line : List Char}
    (hbody : ∀ c r, line = c :: r → jsIsWs c = false) :
    upperName line = jsTrimRight ((line.takeWhile ownUpper).dropLast) := by
  unfold upperName upperRunLen
  cases hn : (line.takeWhile ownUpper).length with
  | zero =>
    have hrun_nil : line.takeWhile ownUpper = [] := List.length_eq_zero.mp hn
    rw [hrun_nil]
    have hsub : jsSubstring line ((0 : Nat) : Int) (((0 : Nat) : Int) - 1) = [] := by
      unfold jsSubstring
      dsimp only
      have e1 : max (((0 : Nat) : Int) - 1) 0 = 0 := by decide
      have e2 : max ((0 : Nat) : Int) 0 = 0 := by decide
      rw [e1, e2]
      simp [List.drop_take]
    simpa using hsub
  | succ m =>
    have hpref := List.takeWhile_prefix (l := line) ownUpper
    have hlen_le : (line.takeWhile ownUpper).length ≤ line.length := hpref.length_le
    rw [hn] at hlen_le
    have hcast : ((m + 1 : Nat) : Int) - 1 = ((m : Nat) : Int) := by push_cast; ring
    rw [hcast]
    have hz : (0 : Int) = ((0 : Nat) : Int) := by simp
    rw [hz, jsSubstring_eq_drop_take (Nat.zero_le m) (by omega)]
    simp only [List.drop_zero, Nat.sub_zero]
    have htake : line.takeWhile ownUpper = line.take (m + 1) := by
      have h1 := List.prefix_iff_eq_take.mp hpref
      rw [hn] at h1
      exact h1
    have hdl : (line.takeWhile ownUpper).dropLast = line.take m := by
      rw [List.dropLast_eq_take, hn, htake, Nat.succ_sub_one, List.take_take,
          min_eq_left (Nat.le_succ m)]
    rw [hdl]
    cases hm0 : line.take m with
    | nil => rfl
    | cons c r =>
      cases hl : line with
      | nil =>
        rw [hl] at hm0
        simp at hm0
      | cons c0 rest =>
        have hcc : c = c0 := by
          cases m with
          | zero => simp at hm0
          | succ m2 =>
            rw [hl, List.take_succ_cons] at hm0
            exact ((List.cons.inj hm0).1).symm
        rw [hcc]
        exact jsTrim_cons_not_ws (hbody c0 rest hl)
theorem parseBody_ok_of_cons {t l0 l1 : List Char} {rest : List (List Char)}
    (h : normLines t = l0 :: l1 :: rest) :
    parseBody t = Except.ok (bodyFacts (normLines t) (upperName l1)) := by
  unfold parseBody
  rw [h]
  simp [readUpperCase]

theorem parseBody_ok_inv {t : List Char} {b : Body} (h : parseBody t = Except.ok b) :
    ∃ l0 l1 rest, normLines t = l0 :: l1 :: rest ∧
      b = bodyFacts (normLines t) (upperName l1) := by
  cases hl : normLines t with
  | nil =>
    unfold parseBody at h
    rw [hl] at h
    simp [readUpperCase] at h
  | cons l0 tail =>
    cases tail with
    | nil =>
      unfold parseBody at h
      rw [hl] at h
      simp [readUpperCase] at h
    | cons l1 rest =>
      have heq := parseBody_ok_of_cons hl
      rw [heq] at h
      refine ⟨l0, l1, rest, rfl, ?_⟩
      rw [← Except.ok.inj h, hl]

theorem parse_ok_of_body {e : Email} {b : Body} (h : parseBody e.text = Except.ok b) :
    parse e = Except.ok (assemble e b) := by
  unfold parse
  rw [h]

theorem parse_ok_inv {e : Email} {r : TransferRecord} (h : parse e = Except.ok r) :
    ∃ b, parseBody e.text = Except.ok b ∧ r = assemble e b := by
  unfold parse at h
  cases hb : parseBody e.text with
  | error err =>
    rw [hb] at h
    simp at h
  | ok b =>
    rw [hb] at h
    exact ⟨b, rfl, (Except.ok.inj h).symm⟩

theorem errorsOf_sublist (s : Subject) (b : Body) :
    (errorsOf s b).Sublist
      [subjectErrMsg, amountErrMsg b.amount, langErrMsg, autoErrMsg] := by
  unfold errorsOf
  have h1 : (if s.is_email_transfer then ([] : List (List Char)) else [subjectErrMsg]).Sublist
      [subjectErrMsg] := by
    split
    · exact List.nil_sublist _
    · exact List.Sublist.refl _
  have h2 : (if b.is_valid_amount then ([] : List (List Char)) else [amountErrMsg b.amount]).Sublist
      [amountErrMsg b.amount] := by
    split
    · exact List.nil_sublist _
    · exact List.Sublist.refl _
  have h3 : (if s.language = b.language then ([] : List (List Char)) else [langErrMsg]).Sublist
      [langErrMsg] := by
    split
    · exact List.nil_sublist _
    · exact List.Sublist.refl _
  have h4 : (if s.is_auto_deposit = b.is_auto_deposit then ([] : List (List Char)) else [autoErrMsg]).Sublist
      [autoErrMsg] := by
    split
    · exact List.nil_sublist _
    · exact List.Sublist.refl _
  have := h1.append (h2.append (h3.append h4))
  simpa using this

theorem subjectErrMsg_ne_amountErrMsg (v : JsValue) : subjectErrMsg ≠ amountErrMsg v := by
  intro h
  have h2 : (some 'S' : Option Char) = some 'A' := congrArg List.head? h
  simp at h2

theorem langErrMsg_ne_amountErrMsg (v : JsValue) : langErrMsg ≠ amountErrMsg v := by
  intro h
  have h2 : (some 'S' : Option Char) = some 'A' := congrArg List.head? h
  simp at h2

theorem autoErrMsg_ne_amountErrMsg (v : JsValue) : autoErrMsg ≠ amountErrMsg v := by
  intro h
  have h2 : (some 'S' : Option Char) = some 'A' := congrArg List.head? h
  simp at h2

theorem msgs_nodup (v : JsValue) :
    ([subjectErrMsg, amountErrMsg v, langErrMsg, autoErrMsg]).Nodup := by
  have hSA := subjectErrMsg_ne_amountErrMsg v
  have hLA := langErrMsg_ne_amountErrMsg v
  have hUA := autoErrMsg_ne_amountErrMsg v
  have hSL : subjectErrMsg ≠ langErrMsg := by decide
  have hSU : subjectErrMsg ≠ autoErrMsg := by decide
  have hLU : langErrMsg ≠ autoErrMsg := by decide
  have hAL : amountErrMsg v ≠ langErrMsg := fun h => hLA h.symm
  have hAU : amountErrMsg v ≠ autoErrMsg := fun h => hUA h.symm
  simp [List.nodup_cons, hSA, hSL, hSU, hAL, hAU, hLU]
theorem assemble_errors (e : Email) (b : Body) :
    (assemble e b).errors =
      if (errorsOf (parseSubject e.subject) b).isEmpty then none
      else some (errorsOf (parseSubject e.subject) b) := rfl

theorem langErrMsg_mem_errorsOf_iff (s : Subject) (b : Body) :
    langErrMsg ∈ errorsOf s b ↔ s.language ≠ b.language := by
  have hne1 : langErrMsg ≠ subjectErrMsg := by decide
  have hne2 : langErrMsg ≠ amountErrMsg b.amount := langErrMsg_ne_amountErrMsg b.amount
  have hne4 : langErrMsg ≠ autoErrMsg := by decide
  unfold errorsOf
  cases hc1 : s.is_email_transfer <;> cases hc2 : b.is_valid_amount <;>
    by_cases hc4 : s.is_auto_deposit = b.is_auto_deposit <;>
    by_cases h3 : s.language = b.language <;>
    simp [hc4, h3, hne1, hne2, hne4]

theorem amountErrMsg_mem_errorsOf (s : Subject) {b : Body}
    (h : b.is_valid_amount = false) :
    amountErrMsg b.amount ∈ errorsOf s b := by
  unfold errorsOf
  rw [h]
  simp

theorem bodyFacts_from_name (lines : List (List Char)) (fn : List Char) :
    (bodyFacts lines fn).from_name = fn := by
  unfold bodyFacts
  cases h : containsLine lines ['$'] <;> rfl

theorem bodyFacts_none_fields (lines : List (List Char)) (fn : List Char)
    (h : containsLine lines ['$'] = none) :
    (bodyFacts lines fn).amount = JsValue.null ∧
    (bodyFacts lines fn).currency = none ∧
    (bodyFacts lines fn).is_valid_amount = false := by
  unfold bodyFacts
  rw [h]
  exact ⟨rfl, rfl, rfl⟩

theorem bodyFacts_some_fields (lines : List (List Char)) (fn : List Char)
    (line : List Char) (h : containsLine lines ['$'] = some line) :
    (bodyFacts lines fn).amount = amountOf line ∧
    (bodyFacts lines fn).currency = currencyOf line ∧
    (bodyFacts lines fn).is_valid_amount = jsIsNumberNotNaN (amountOf line) := by
  unfold bodyFacts
  rw [h]
  exact ⟨rfl, rfl, rfl⟩
/-! ## Claim theorems -/

/-- Claim C1, counterexample: on the body `"a\nb\n$5.25 (CA) x"` the selected
line's first parenthesized span has interior `"CA"` of length 2, yet
`parseBody` sets the currency to `"CA"` -- the code requires
`currencyEnd - currencyStart >= 3`, i.e. interior length at least 2, not 3,
so the claim (and its `"(CA)"` example) is false. -/
theorem c1_counterexample :
    parseBody c1Text = Except.ok (okBody c1Text) ∧
    containsLine (normLines c1Text) ['$'] = some c1Line ∧
    firstParenInterior c1Line = some ['C', 'A'] ∧
    (okBody c1Text).currency = some ['C', 'A'] ∧
    ¬ claimC1 := by
  refine ⟨rfl, rfl, rfl, rfl, ?_⟩
  intro hclaim
  have h := hclaim c1Text (okBody c1Text) c1Line rfl rfl
  exact absurd h (by decide)

/-- Claim C1 as amended: the currency is the interior of the first
parenthesized span exactly when that interior has length at least 2
(the code's test `currencyEnd - currencyStart >= 3` is an index-difference
bound, which exceeds the interior length by one). -/
theorem c1_currency_interior (text : List Char) (b : Body) (line : List Char)
    (h : parseBody text = Except.ok b)
    (hline : containsLine (normLines text) ['$'] = some line) :
    b.currency = (firstParenInterior line).bind
      (fun r => if 2 ≤ r.length then some r else none) := by
  obtain ⟨l0, l1, rest, hl, hbf⟩ := parseBody_ok_inv h
  rw [hbf, (bodyFacts_some_fields _ _ _ hline).2.1, currencyOf_eq_spec]

/-- Witness for `c1_currency_interior` at the Scenario-A body, whose span
`(CAD)` has interior length 3. -/
theorem c1_currency_interior_witness :
    parseBody sampleText = Except.ok (okBody sampleText) ∧
    containsLine (normLines sampleText) ['$'] = some sampleLine1 ∧
    (okBody sampleText).currency = (firstParenInterior sampleLine1).bind
      (fun r => if 2 ≤ r.length then some r else none) :=
  ⟨rfl, rfl, c1_currency_interior sampleText (okBody sampleText) sampleLine1 rfl rfl⟩

/-- Claim C2, counterexample: on a body with a single non-blank line,
`parseBody` reads the missing second line (`undefined` in JS) and
`readUpperCase` throws a `TypeError` on `undefined.length`, so `Parser.parse`
does not return normally on every input. -/
theorem c2_counterexample :
    parse c2Email = Except.error () ∧ ¬ claimC2 := by
  refine ⟨rfl, ?_⟩
  intro hclaim
  obtain ⟨r, hr⟩ := hclaim c2Email
  rw [show parse c2Email = Except.error () from rfl] at hr
  exact Except.noConfusion hr

/-- Claim C2 as amended: `Parser.parse` returns normally exactly when the
normalized body has at least two non-blank lines; with fewer, the sender-name
step dereferences a missing line and the `TypeError` propagates.  (Every
other extraction step is total, as the forward direction shows.) -/
theorem c2_parse_total_iff (e : Email) :
    (∃ r, parse e = Except.ok r) ↔ 2 ≤ (normLines e.text).length := by
  constructor
  · rintro ⟨r, hr⟩
    obtain ⟨b, hb, _⟩ := parse_ok_inv hr
    obtain ⟨l0, l1, rest, hl, _⟩ := parseBody_ok_inv hb
    rw [hl]
    simp only [List.length_cons]
    omega
  · intro h
    obtain ⟨l0, l1, rest, hl⟩ : ∃ l0 l1 rest, normLines e.text = l0 :: l1 :: rest := by
      cases hl : normLines e.text with
      | nil =>
        rw [hl] at h
        simp at h
      | cons a tail =>
        cases tail with
        | nil =>
          rw [hl] at h
          simp at h
        | cons a2 rest => exact ⟨a, a2, rest, rfl⟩
    exact ⟨assemble e (bodyFacts (normLines e.text) (upperName l1)),
      parse_ok_of_body (parseBody_ok_of_cons hl)⟩

/-- Witness for `c2_parse_total_iff` at the Scenario-A e-mail. -/
theorem c2_parse_total_iff_witness :
    2 ≤ (normLines sampleEmail.text).length ∧ ∃ r, parse sampleEmail = Except.ok r :=
  ⟨by decide, (c2_parse_total_iff sampleEmail).mpr (by decide)⟩

/-- Claim C3, counterexample: the body `"a\nb\n$Infinity (CAD)"` parses to
positive infinity -- not a finite number -- yet the validity flag is true,
because the code tests `!Number.isNaN(amount)`, not finiteness. -/
theorem c3_counterexample :
    parseBody c3Text = Except.ok (okBody c3Text) ∧
    (okBody c3Text).is_valid_amount = true ∧
    (okBody c3Text).amount = JsValue.num (JsFloat.inf false) ∧
    ¬ claimC3 := by
  refine ⟨rfl, rfl, rfl, ?_⟩
  intro hclaim
  obtain ⟨q, hq⟩ := hclaim c3Text (okBody c3Text) rfl rfl
  rw [show (okBody c3Text).amount = JsValue.num (JsFloat.inf false) from rfl] at hq
  exact JsFloat.noConfusion (JsValue.num.inj hq)

/-- Claim C3 as amended: the validity flag is true only when the amount is a
number that is not `NaN`; infinite values also count as valid. -/
theorem c3_valid_not_nan (text : List Char) (b : Body)
    (h : parseBody text = Except.ok b) (hv : b.is_valid_amount = true) :
    ∃ f, b.amount = JsValue.num f ∧ f ≠ JsFloat.nan := by
  obtain ⟨l0, l1, rest, hl, hbf⟩ := parseBody_ok_inv h
  rw [hbf] at hv ⊢
  cases hcl : containsLine (normLines text) ['$'] with
  | none =>
    rw [(bodyFacts_none_fields _ _ hcl).2.2] at hv
    cases hv
  | some line =>
    have hfields := bodyFacts_some_fields (normLines text) (upperName l1) line hcl
    rw [hfields.2.2] at hv
    rw [hfields.1]
    cases ha : amountOf line with
    | null =>
      rw [ha] at hv
      simp [jsIsNumberNotNaN] at hv
    | num f =>
      refine ⟨f, rfl, ?_⟩
      intro hf
      rw [ha, hf] at hv
      simp [jsIsNumberNotNaN] at hv

/-- Witness for `c3_valid_not_nan` at the Scenario-A body (amount 5.25). -/
theorem c3_valid_not_nan_witness :
    parseBody sampleText = Except.ok (okBody sampleText) ∧
    (okBody sampleText).is_valid_amount = true ∧
    ∃ f, (okBody sampleText).amount = JsValue.num f ∧ f ≠ JsFloat.nan :=
  ⟨rfl, rfl, c3_valid_not_nan sampleText (okBody sampleText) rfl rfl⟩

/-- Claim C4, counterexample: on the line `"5 x$123"` (no space after the
`$`, a digit followed by a space earlier in the line) the claimed two-strategy
computation yields 5 via the fallback, but the code leaves the amount `null`
and never applies the fallback, because `isNaN(null)` is `false` in JS. -/
theorem c4_counterexample :
    parseBody c4Text = Except.ok (okBody c4Text) ∧
    containsLine (normLines c4Text) ['$'] = some c4Line ∧
    primarySpecAmount c4Line = none ∧
    fallbackSpecAmount c4Line = some (JsFloat.fin 5) ∧
    claimedAmount c4Line = JsValue.num (JsFloat.fin 5) ∧
    (okBody c4Text).amount = JsValue.null ∧
    (okBody c4Text).is_valid_amount = false ∧
    ¬ claimC4 := by
  refine ⟨rfl, rfl, rfl, by decide, by decide, rfl, rfl, ?_⟩
  intro hclaim
  have h := hclaim c4Text (okBody c4Text) c4Line rfl rfl
  rw [show (okBody c4Text).amount = JsValue.null from rfl] at h
  rw [show claimedAmount c4Line = JsValue.num (JsFloat.fin 5) from by decide] at h
  exact JsValue.noConfusion h

/-- Claim C4 as amended: the fallback strategy runs only when the primary
`$`-to-space span exists and its parse is `NaN`; when the span is missing
(no space after the `$`) the amount stays `null` and the fallback is skipped
even if it would succeed, because `isNaN(null)` is `false`. -/
theorem c4_fallback_gating (text : List Char) (b : Body) (line : List Char)
    (h : parseBody text = Except.ok b)
    (hline : containsLine (normLines text) ['$'] = some line) :
    b.amount =
      match primarySpecAmount line with
      | none => JsValue.null
      | some p =>
        if p = JsFloat.nan then
          match fallbackSpecAmount line with
          | some f => JsValue.num f
          | none => JsValue.num JsFloat.nan
        else JsValue.num p := by
  obtain ⟨l0, l1, rest, hl, hbf⟩ := parseBody_ok_inv h
  rw [hbf, (bodyFacts_some_fields _ _ _ hline).1, amountOf_eq_spec]

/-- Witness for `c4_fallback_gating` at the Scenario-A body, where the
primary strategy parses 5.25. -/
theorem c4_fallback_gating_witness :
    parseBody sampleText = Except.ok (okBody sampleText) ∧
    containsLine (normLines sampleText) ['$'] = some sampleLine1 ∧
    ((okBody sampleText).amount =
      match primarySpecAmount sampleLine1 with
      | none => JsValue.null
      | some p =>
        if p = JsFloat.nan then
          match fallbackSpecAmount sampleLine1 with
          | some f => JsValue.num f
          | none => JsValue.num JsFloat.nan
        else JsValue.num p) :=
  ⟨rfl, rfl, c4_fallback_gating sampleText (okBody sampleText) sampleLine1 rfl rfl⟩
/-- Claim C5: whenever `Parser.parse` returns a record, its error field is
either `null` or a non-empty list of pairwise-distinct strings. -/
theorem c5_errors_nonempty_nodup (e : Email) (r : TransferRecord)
    (h : parse e = Except.ok r) :
    r.errors = none ∨ ∃ l, r.errors = some l ∧ l ≠ [] ∧ l.Nodup := by
  obtain ⟨b, hb, rfl⟩ := parse_ok_inv h
  rw [assemble_errors]
  by_cases he : (errorsOf (parseSubject e.subject) b).isEmpty
  · left
    rw [if_pos he]
  · right
    refine ⟨errorsOf (parseSubject e.subject) b, by rw [if_neg he], ?_, ?_⟩
    · simp only [List.isEmpty_iff] at he
      exact he
    · exact List.Nodup.sublist (errorsOf_sublist _ _) (msgs_nodup b.amount)

/-- Witness for `c5_errors_nonempty_nodup` at the Scenario-A e-mail
(no errors). -/
theorem c5_errors_nonempty_nodup_witness :
    parse sampleEmail = Except.ok (okRec sampleEmail) ∧
    ((okRec sampleEmail).errors = none ∨
      ∃ l, (okRec sampleEmail).errors = some l ∧ l ≠ [] ∧ l.Nodup) :=
  ⟨rfl, c5_errors_nonempty_nodup sampleEmail (okRec sampleEmail) rfl⟩

/-- Claim C6: the assembled record's resolved fields -- language is the body
language when present, else the subject language; auto-deposit is the
conjunction of the body and subject claims; is-email-transfer is the
conjunction of subject recognition and amount validity. -/
theorem c6_assembly_fields (e : Email) (r : TransferRecord) (b : Body)
    (h : parse e = Except.ok r) (hb : parseBody e.text = Except.ok b) :
    r.language = (if (b.language).isSome then b.language
                  else (parseSubject e.subject).language) ∧
    r.isAutoDeposit = (b.is_auto_deposit && (parseSubject e.subject).is_auto_deposit) ∧
    r.isEmailTransfer = ((parseSubject e.subject).is_email_transfer && b.is_valid_amount) := by
  obtain ⟨b2, hb2, rfl⟩ := parse_ok_inv h
  have hbb : b2 = b := Except.ok.inj (hb2.symm.trans hb)
  subst hbb
  refine ⟨?_, rfl, rfl⟩
  show (match b2.language with
        | some l => some l
        | none => (parseSubject e.subject).language) =
      if (b2.language).isSome then b2.language else (parseSubject e.subject).language
  cases b2.language <;> simp

/-- Witness for `c6_assembly_fields` at the Scenario-A e-mail. -/
theorem c6_assembly_fields_witness :
    parse sampleEmail = Except.ok (okRec sampleEmail) ∧
    parseBody sampleEmail.text = Except.ok (okBody sampleEmail.text) ∧
    ((okRec sampleEmail).language =
        (if ((okBody sampleEmail.text).language).isSome then (okBody sampleEmail.text).language
         else (parseSubject sampleEmail.subject).language) ∧
      (okRec sampleEmail).isAutoDeposit =
        ((okBody sampleEmail.text).is_auto_deposit &&
          (parseSubject sampleEmail.subject).is_auto_deposit) ∧
      (okRec sampleEmail).isEmailTransfer =
        ((parseSubject sampleEmail.subject).is_email_transfer &&
          (okBody sampleEmail.text).is_valid_amount)) :=
  ⟨rfl, rfl, c6_assembly_fields sampleEmail (okRec sampleEmail) (okBody sampleEmail.text) rfl rfl⟩

/-- Claim C7: the language-mismatch error appears in the record's error list
exactly when the subject-derived and body-derived languages differ; two
absent (`none`) languages compare equal, so they produce no mismatch error. -/
theorem c7_language_mismatch_iff (e : Email) (r : TransferRecord) (b : Body)
    (h : parse e = Except.ok r) (hb : parseBody e.text = Except.ok b) :
    (∃ l, r.errors = some l ∧ langErrMsg ∈ l) ↔
      (parseSubject e.subject).language ≠ b.language := by
  obtain ⟨b2, hb2, rfl⟩ := parse_ok_inv h
  have hbb : b2 = b := Except.ok.inj (hb2.symm.trans hb)
  subst hbb
  rw [assemble_errors]
  constructor
  · rintro ⟨l, hl, hmem⟩
    by_cases he : (errorsOf (parseSubject e.subject) b2).isEmpty
    · rw [if_pos he] at hl
      cases hl
    · rw [if_neg he] at hl
      rw [← Option.some.inj hl] at hmem
      exact (langErrMsg_mem_errorsOf_iff _ _).mp hmem
  · intro hne
    have hmem := (langErrMsg_mem_errorsOf_iff (parseSubject e.subject) b2).mpr hne
    have hnil := List.ne_nil_of_mem hmem
    refine ⟨errorsOf (parseSubject e.subject) b2, ?_, hmem⟩
    rw [if_neg (by simp only [List.isEmpty_iff]; exact hnil)]

/-- Witness for `c7_language_mismatch_iff` at the Scenario-A e-mail, where
both languages are English and no mismatch error appears. -/
theorem c7_language_mismatch_iff_witness :
    parse sampleEmail = Except.ok (okRec sampleEmail) ∧
    parseBody sampleEmail.text = Except.ok (okBody sampleEmail.text) ∧
    ((∃ l, (okRec sampleEmail).errors = some l ∧ langErrMsg ∈ l) ↔
      (parseSubject sampleEmail.subject).language ≠ (okBody sampleEmail.text).language) :=
  ⟨rfl, rfl, c7_language_mismatch_iff sampleEmail (okRec sampleEmail)
    (okBody sampleEmail.text) rfl rfl⟩
/-- Claim C8: for a body whose normalization has a second line, the sender
name is that line's leading run of characters that are their own upper-cased
form, with the character immediately preceding the detected stop dropped and
the result trimmed of trailing whitespace. -/
theorem c8_sender_name (text : List Char) (b : Body) (l0 l1 : List Char)
    (rest : List (List Char)) (h : parseBody text = Except.ok b)
    (hl : normLines text = l0 :: l1 :: rest) :
    b.from_name = jsTrimRight ((l1.takeWhile ownUpper).dropLast) := by
  obtain ⟨l0', l1', rest', hl', hbf⟩ := parseBody_ok_inv h
  rw [hl] at hl'
  have h1 : l1' = l1 := ((List.cons.inj ((List.cons.inj hl').2)).1).symm
  subst h1
  have hmem : l1' ∈ normLines text := by
    rw [hl]
    exact List.mem_cons_of_mem _ (List.mem_cons_self _ _)
  obtain ⟨⟨s, hs⟩, hne⟩ := normLines_mem hmem
  have hbody : ∀ c r, l1' = c :: r → jsIsWs c = false := by
    intro c r hcr
    apply jsTrim_head_false (s := s)
    rw [← hs]
    exact hcr
  have hfn : b.from_name = upperName l1' := by
    rw [hbf]
    exact bodyFacts_from_name _ _
  rw [hfn]
  exact upperName_eq_trimRight hbody

/-- Witness for `c8_sender_name` at the Scenario-A body: the second line
starts `"SAMPLE TENANT has …"` and the captured name is `"SAMPLE TENANT"`. -/
theorem c8_sender_name_witness :
    parseBody sampleText = Except.ok (okBody sampleText) ∧
    normLines sampleText = sampleLine0 :: sampleLine1 :: sampleRest ∧
    (okBody sampleText).from_name =
      jsTrimRight ((sampleLine1.takeWhile ownUpper).dropLast) :=
  ⟨rfl, rfl, c8_sender_name sampleText (okBody sampleText) sampleLine0 sampleLine1
    sampleRest rfl rfl⟩

/-- Claim C9: when no normalized line contains `$`, the body analyzer returns
early with amount `null`, currency unset and validity false, and `parse`
records the invalid-amount error (interpolating the `null` amount). -/
theorem c9_no_dollar_line (e : Email) (r : TransferRecord) (b : Body)
    (h : parse e = Except.ok r) (hb : parseBody e.text = Except.ok b)
    (hno : ∀ l ∈ normLines e.text, '$' ∉ l) :
    b.amount = JsValue.null ∧ b.currency = none ∧ b.is_valid_amount = false ∧
      ∃ l, r.errors = some l ∧ amountErrMsg JsValue.null ∈ l := by
  obtain ⟨l0, l1, rest, hl, hbf⟩ := parseBody_ok_inv hb
  have hcl : containsLine (normLines e.text) ['$'] = none :=
    containsLine_eq_none_iff.mpr hno
  have hfields := bodyFacts_none_fields (normLines e.text) (upperName l1) hcl
  obtain ⟨b2, hb2, rfl⟩ := parse_ok_inv h
  have hbb : b2 = b := Except.ok.inj (hb2.symm.trans hb)
  subst hbb
  have hamount : b2.amount = JsValue.null := by
    rw [hbf]
    exact hfields.1
  have hv : b2.is_valid_amount = false := by
    rw [hbf]
    exact hfields.2.2
  refine ⟨hamount, by rw [hbf]; exact hfields.2.1, hv, ?_⟩
  have hmem := amountErrMsg_mem_errorsOf (parseSubject e.subject) hv
  rw [hamount] at hmem
  have hnil := List.ne_nil_of_mem hmem
  refine ⟨errorsOf (parseSubject e.subject) b2, ?_, hmem⟩
  rw [assemble_errors, if_neg (by simp only [List.isEmpty_iff]; exact hnil)]

/-- Witness for `c9_no_dollar_line` at a body with no dollar sign. -/
theorem c9_no_dollar_line_witness :
    parse c9Email = Except.ok (okRec c9Email) ∧
    parseBody c9Email.text = Except.ok (okBody c9Email.text) ∧
    (∀ l ∈ normLines c9Email.text, '$' ∉ l) ∧
    ((okBody c9Email.text).amount = JsValue.null ∧
      (okBody c9Email.text).currency = none ∧
      (okBody c9Email.text).is_valid_amount = false ∧
      ∃ l, (okRec c9Email).errors = some l ∧ amountErrMsg JsValue.null ∈ l) :=
  ⟨rfl, rfl, by decide,
    c9_no_dollar_line c9Email (okRec c9Email) (okBody c9Email.text) rfl rfl (by decide)⟩

/-- Claim C10: the error list, when present, is a non-empty sublist of the
fixed four-message sequence (subject-phrase, invalid-amount, language
mismatch, auto-deposit mismatch): each message appears at most once, in that
fixed relative order, so its length is between 1 and 4. -/
theorem c10_errors_sublist (e : Email) (r : TransferRecord) (b : Body)
    (h : parse e = Except.ok r) (hb : parseBody e.text = Except.ok b) :
    r.errors = none ∨ ∃ l, r.errors = some l ∧ l ≠ [] ∧
      l.Sublist [subjectErrMsg, amountErrMsg b.amount, langErrMsg, autoErrMsg] := by
  obtain ⟨b2, hb2, rfl⟩ := parse_ok_inv h
  have hbb : b2 = b := Except.ok.inj (hb2.symm.trans hb)
  subst hbb
  rw [assemble_errors]
  by_cases he : (errorsOf (parseSubject e.subject) b2).isEmpty
  · left
    rw [if_pos he]
  · right
    refine ⟨errorsOf (parseSubject e.subject) b2, by rw [if_neg he], ?_,
      errorsOf_sublist _ _⟩
    simp only [List.isEmpty_iff] at he
    exact he

/-- Witness for `c10_errors_sublist` at the no-dollar e-mail, whose error
list is the two-message sublist invalid-amount / auto-deposit mismatch. -/
theorem c10_errors_sublist_witness :
    parse c9Email = Except.ok (okRec c9Email) ∧
    parseBody c9Email.text = Except.ok (okBody c9Email.text) ∧
    ((okRec c9Email).errors = none ∨ ∃ l, (okRec c9Email).errors = some l ∧ l ≠ [] ∧
      l.Sublist [subjectErrMsg, amountErrMsg (okBody c9Email.text).amount,
        langErrMsg, autoErrMsg]) :=
  ⟨rfl, rfl, c10_errors_sublist c9Email (okRec c9Email) (okBody c9Email.text) rfl rfl⟩
